import Mathlib

/-!
Formal model of the igc download/scan pipeline.

The Go sources are shallowly embedded: pure functions become Lean
functions over `Nat`/`Int`/`ℚ`/`String`; file, network and random
effects are passed in explicitly as oracle values, and emitted effects
are collected in explicit traces.  Durations and float64 arithmetic are
modelled over `ℚ`; Go maps used as string sets are modelled as
`List String` with membership lookup.
-/

namespace Fetcher

/-! Embedding of the retrying bulk downloader (the `package main`
downloader with retry logic: `calculateBackoffDelay`,
`isRetryableError`, `isRetryableHTTPStatus`, `loadURLsFromFile`,
`downloadFile`, `downloadFiles`). -/

/-- Go `RetryConfig`.  `time.Duration` values and the float64 factors are
modelled over `ℚ`. -/
structure RetryConfig where
  maxRetries : Nat
  initialDelay : ℚ
  maxDelay : ℚ
  backoffFactor : ℚ
  jitterFactor : ℚ

/-- Go `defaultRetryConfig`: 3 retries, 1s initial, 30s max, factor 2.0,
jitter 0.1 (durations in seconds). -/
def defaultRetryConfig : RetryConfig :=
  { maxRetries := 3, initialDelay := 1, maxDelay := 30,
    backoffFactor := 2, jitterFactor := 1/10 }

/-- Go `calculateBackoffDelay(attempt, config)`.  The random draw
`rand.Float64()*2 - 1` is passed in as the oracle `u` (a value in
`[-1, 1]`).  `math.Pow(factor, float64(attempt))` for the positive
integer attempt of the program is `factor ^ attempt.toNat`. -/
def calculateBackoffDelay (attempt : Int) (config : RetryConfig) (u : ℚ) : ℚ :=
  if attempt ≤ 0 then
    config.initialDelay
  else
    let delay := config.initialDelay * config.backoffFactor ^ attempt.toNat
    let jitter := delay * config.jitterFactor * u
    let delay := delay + jitter
    if delay > config.maxDelay then config.maxDelay else delay

/-- `calculateBackoffDelay` with the jitter draw at its mean (u = 0):
the unperturbed delay. -/
def unperturbedDelay (attempt : Int) (config : RetryConfig) : ℚ :=
  calculateBackoffDelay attempt config 0

/-- `charListBeginsWith hay needle`: `needle` is an initial segment of
`hay` (helper for the substring test of Go `strings.Contains`). -/
def charListBeginsWith : List Char → List Char → Bool
  | _, [] => true
  | [], _ :: _ => false
  | c :: cs, d :: ds => c == d && charListBeginsWith cs ds

/-- `charListHasSub hay needle`: `needle` occurs contiguously inside
`hay`. -/
def charListHasSub : List Char → List Char → Bool
  | [], needle => charListBeginsWith [] needle
  | c :: t, needle => charListBeginsWith (c :: t) needle || charListHasSub t needle

/-- Go `strings.Contains(s, sub)`. -/
def strContains (s sub : String) : Bool :=
  charListHasSub s.data sub.data

/-- Go `strings.ToLower` (ASCII case folding suffices for the category
strings involved). -/
def strToLower (s : String) : String :=
  String.mk (s.data.map Char.toLower)

/-- The closed list `retryableErrors` of `isRetryableError`. -/
def retryableErrors : List String :=
  ["timeout", "connection reset", "connection refused",
   "temporary failure", "no route to host", "network is unreachable"]

/-- Go `isRetryableError(err)`.  An error value is modelled as
`Option String` (`none` is Go `nil`, `some s` an error whose
`Error()` text is `s`). -/
def isRetryableError : Option String → Bool
  | none => false
  | some errStr =>
      retryableErrors.any (fun retryable => strContains (strToLower errStr) retryable)

/-- The list `retryableStatusCodes` of `isRetryableHTTPStatus`. -/
def retryableStatusCodes : List Int := [429, 500, 502, 503, 504]

/-- Go `isRetryableHTTPStatus(statusCode)`. -/
def isRetryableHTTPStatus (statusCode : Int) : Bool :=
  retryableStatusCodes.any (fun code => statusCode == code)

/-- Go `fixUnicodeEscapes`. -/
def fixUnicodeEscapes (str : String) : String :=
  let str := str.replace "\\u0026" "&"
  let str := str.replace "\\u003d" "="
  let str := str.replace "\\u003f" "?"
  let str := str.replace "\\u007e" "~"
  str

/-- Go `isURL`. -/
def isURL (str : String) : Bool :=
  str.startsWith "http://" || str.startsWith "https://"

/-- Go `loadURLsFromFile`, with the file contents given as the list of
its lines (the `bufio.Scanner` line loop).  I/O errors from the scanner
are outside this model. -/
def loadURLsFromFile (lines : List String) : List String :=
  lines.foldl
    (fun urls line =>
      if (line != "") && !(line.startsWith "#") then
        let cleanedURL := fixUnicodeEscapes line
        if isURL cleanedURL then urls ++ [cleanedURL] else urls
      else urls)
    []

/-- Go `DownloadResult`.  The zero value of the struct has
`success = false`, `error = none`, empty `filePath`, `retries = 0`. -/
structure DownloadResult where
  url : String
  success : Bool
  error : Option String
  filePath : String
  retries : Nat
deriving Repr, DecidableEq

/-- Side effects performed by `downloadFile`, recorded as a trace:
the backoff sleep, the `httpClient.Get` call, `os.Create`, the body
copy into the destination file, and `os.Remove`. -/
inductive Effect where
  | sleep
  | httpGet (url : String)
  | fileCreate (path : String)
  | fileWrite (path : String)
  | fileRemove (path : String)
deriving Repr, DecidableEq

/-- Outcome of one `httpClient.Get` call: a transport error with its
`Error()` text, or a response with its status code. -/
inductive HTTPResult where
  | failure (msg : String)
  | response (statusCode : Int)
deriving Repr, DecidableEq

/-- Oracle for one iteration of the download attempt loop: the HTTP
outcome, whether `os.Create` succeeds, and whether the
`io.CopyBuffer` of the body succeeds. -/
structure AttemptEnv where
  http : HTTPResult
  createOk : Bool
  copyOk : Bool
deriving Repr, DecidableEq

/-- The `for attempt := 0; attempt <= maxRetries; attempt++` loop of
`downloadFile`.  `envs` supplies the oracle for each remaining
iteration; `result` is the Go `result` struct threaded through the
loop (fields are updated exactly where the Go code assigns them, so
stale fields persist as in Go).  Returns the result together with the
trace of effects. -/
def downloadAttempts (cfg : RetryConfig) (urlString filePath : String) :
    List AttemptEnv → Nat → DownloadResult → DownloadResult × List Effect
  | [], _, result =>
      ({ result with error := some "max retries exceeded", retries := cfg.maxRetries }, [])
  | e :: rest, attempt, result =>
      let sleepFx : List Effect := if attempt > 0 then [Effect.sleep] else []
      match e.http with
      | HTTPResult.failure msg =>
          let result := { result with error := some ("HTTP request failed: " ++ msg),
                                      retries := attempt }
          if isRetryableError (some msg) && attempt < cfg.maxRetries then
            let (r, fx) := downloadAttempts cfg urlString filePath rest (attempt + 1) result
            (r, sleepFx ++ [Effect.httpGet urlString] ++ fx)
          else
            (result, sleepFx ++ [Effect.httpGet urlString])
      | HTTPResult.response code =>
          if code ≠ 200 then
            let result := { result with error := some ("HTTP status " ++ toString code),
                                        retries := attempt }
            if isRetryableHTTPStatus code && attempt < cfg.maxRetries then
              let (r, fx) := downloadAttempts cfg urlString filePath rest (attempt + 1) result
              (r, sleepFx ++ [Effect.httpGet urlString] ++ fx)
            else
              (result, sleepFx ++ [Effect.httpGet urlString])
          else if !e.createOk then
            ({ result with error := some "failed to create file", retries := attempt },
             sleepFx ++ [Effect.httpGet urlString, Effect.fileCreate filePath])
          else if !e.copyOk then
            ({ result with error := some "failed to write file", retries := attempt },
             sleepFx ++ [Effect.httpGet urlString, Effect.fileCreate filePath,
                         Effect.fileWrite filePath, Effect.fileRemove filePath])
          else
            ({ result with success := true, filePath := filePath, retries := attempt },
             sleepFx ++ [Effect.httpGet urlString, Effect.fileCreate filePath,
                         Effect.fileWrite filePath])

/-- Go `strings.Split` on a single separator character, over the
character list of the string: every separator occurrence splits, empty
segments are kept, and the empty input yields one empty segment. -/
def splitOnChar (sep : Char) : List Char → List (List Char)
  | [] => [[]]
  | c :: rest =>
      let r := splitOnChar sep rest
      if c == sep then [] :: r
      else (c :: r.headD []) :: r.tail

/-- Filename extraction of `downloadFile`:
`strings.Split(parsedURL.Path, "/")`, last element, with the
`"unknown_file"` substitution for an empty segment. -/
def filenameFromPath (path : String) : String :=
  let pathParts := splitOnChar '/' path.data
  let filename := pathParts.getLastD []
  if filename.isEmpty then "unknown_file" else String.mk filename

/-- `filepath.Join(downloadDir, filename)` (the `Clean` normalisation
of Go's `Join`, irrelevant for plain names, is elided). -/
def filepathJoin (dir name : String) : String :=
  dir ++ "/" ++ name

/-- Go `downloadFile(urlString, downloadDir, existingFileMap)`.
`existingFileMap` (a Go `map[string]bool` set) is a `List String`;
`parsedPath` is the outcome of `url.Parse` (`some` the parsed `Path`,
`none` a parse error); `envs` is the oracle for the attempt loop. -/
def downloadFile (cfg : RetryConfig) (urlString downloadDir : String)
    (existingFileMap : List String) (parsedPath : Option String)
    (envs : List AttemptEnv) : DownloadResult × List Effect :=
  let result : DownloadResult :=
    { url := urlString, success := false, error := none, filePath := "", retries := 0 }
  match parsedPath with
  | none => ({ result with error := some "invalid URL" }, [])
  | some path =>
      let filename := filenameFromPath path
      let filePath := filepathJoin downloadDir filename
      if existingFileMap.contains filename then
        ({ result with success := true, filePath := filePath }, [])
      else
        downloadAttempts cfg urlString filePath envs 0 result

/-- One download task as dispatched by `downloadFiles`: the URL string,
the `url.Parse` outcome for it, and the attempt-loop oracle of its
goroutine. -/
structure DownloadTask where
  urlString : String
  parsedPath : Option String
  envs : List AttemptEnv

/-- Go `downloadFiles(urls, downloadDir, concurrency, existingFileMap)`.
Every task produces exactly one result at its input position
(`results[index] = result`), so the result list is in task order; the
semaphore only bounds concurrency and the per-task
`time.Sleep(100ms)` pacing delay is recorded as a `sleep` effect.
Effects are collected per task in task order. -/
def downloadFiles (cfg : RetryConfig) (tasks : List DownloadTask)
    (downloadDir : String) (existingFileMap : List String) :
    List DownloadResult × List Effect :=
  tasks.foldr
    (fun task (acc : List DownloadResult × List Effect) =>
      let (r, fx) :=
        downloadFile cfg task.urlString downloadDir existingFileMap task.parsedPath task.envs
      (r :: acc.1, (Effect.sleep :: fx) ++ acc.2))
    ([], [])

/-- Whether an effect is an HTTP request. -/
def isHttpGetEffect : Effect → Bool
  | Effect.httpGet _ => true
  | _ => false

/-- Whether an effect touches the filesystem (create, write or
remove). -/
def isFilesystemEffect : Effect → Bool
  | Effect.fileCreate _ => true
  | Effect.fileWrite _ => true
  | Effect.fileRemove _ => true
  | _ => false

end Fetcher

namespace Scan

/-! Embedding of the record scanners: the plain-JSON directory scanner
(`processFileAndWriteMatches` and its orchestration in `main`) and the
streaming gzip scanner (`StreamingGzipProcessor`). -/

/-- Decoded JSON values (`interface{}` after `encoding/json`
decoding).  Go map iteration order is unspecified; object fields are
kept in a list and traversed in list order. -/
inductive Json where
  | str (s : String)
  | num (q : ℚ)
  | boolean (b : Bool)
  | null
  | arr (elems : List Json)
  | obj (fields : List (String × Json))

/-- Go `v["billing_code"].(string)`: the value of the first
`billing_code` field when it is a string. -/
def billingCodeOf : Json → Option String
  | Json.obj fields =>
      match fields.lookup "billing_code" with
      | some (Json.str s) => some s
      | _ => none
  | _ => none

/-- The `targetCodes` set (identical in every file defining it). -/
def targetCodes : List String := ["99283", "99284", "99285", "99291"]

mutual
/-- Go `findMatchingObjectsRecursive(data)`: collect every object whose
`billing_code` field is a string in `targetCodes`, walking object
values and array elements depth-first. -/
def findMatchingObjectsRecursive : Json → List Json
  | Json.obj fields =>
      let self :=
        match billingCodeOf (Json.obj fields) with
        | some code => if targetCodes.contains code then [Json.obj fields] else []
        | none => []
      self ++ searchFields fields
  | Json.arr elems => searchElems elems
  | _ => []

/-- Recursive walk over the values of an object. -/
def searchFields : List (String × Json) → List Json
  | [] => []
  | (_, v) :: rest => findMatchingObjectsRecursive v ++ searchFields rest

/-- Recursive walk over the elements of an array. -/
def searchElems : List Json → List Json
  | [] => []
  | v :: rest => findMatchingObjectsRecursive v ++ searchElems rest
end

/-- One `decoder.Decode(&record)` outcome: a decoded record or a decode
error with its message. -/
abbrev DecodeOutcome := Except String Json

/-- Abstraction of one scanner input file after the leading-byte peek:
empty (whitespace only), a top-level array with the decode outcome of
each element, a top-level object (or object stream) with the decode
outcome of each `Decode` call, or some other leading byte. -/
inductive ScanInput where
  | empty
  | array (elems : List DecodeOutcome)
  | object (objs : List DecodeOutcome)
  | other (c : Char)

/-- Scan result: records written to the output in order, the match
count, and the returned error (`none` is Go `nil`).  Writer/encoder
I/O failures are outside this model (the output sink always accepts
writes). -/
structure ScanOutcome where
  count : Nat
  written : List Json
  err : Option String

end Scan

namespace Pipeline

open Scan

/-- The array-mode element loop of `processFileAndWriteMatches`
(billingCode.go): a decode error is reported as a warning and the
element is skipped (`continue`); a decoded record is written when its
`billing_code` is in `targetCodes`. -/
def arrayLoop (elems : List DecodeOutcome) (count : Nat) (written : List Json) :
    Nat × List Json :=
  match elems with
  | [] => (count, written)
  | Except.error _ :: rest => arrayLoop rest count written
  | Except.ok record :: rest =>
      match billingCodeOf record with
      | some code =>
          if targetCodes.contains code then
            arrayLoop rest (count + 1) (written ++ [record])
          else
            arrayLoop rest count written
      | none => arrayLoop rest count written

/-- Go `processFileAndWriteMatches(filePath, writer)` (billingCode.go).
The top level of the file is the `ScanInput` abstraction: `[` leads to
the element loop, `{` decodes one root object and recursively searches
it, an empty file returns `(0, nil)`, anything else is an error. -/
def processFileAndWriteMatches (input : ScanInput) : ScanOutcome :=
  match input with
  | ScanInput.empty => { count := 0, written := [], err := none }
  | ScanInput.array elems =>
      let (count, written) := arrayLoop elems 0 []
      { count := count, written := written, err := none }
  | ScanInput.object objs =>
      match objs with
      | [] => { count := 0, written := [],
                err := some "failed to decode root object: EOF" }
      | Except.error msg :: _ =>
          { count := 0, written := [],
            err := some ("failed to decode root object: " ++ msg) }
      | Except.ok data :: _ =>
          let found := findMatchingObjectsRecursive data
          { count := found.length, written := found, err := none }
  | ScanInput.other _ =>
      { count := 0, written := [],
        err := some "file does not appear to be valid JSON" }

/-- Go `result` struct sent back by scan workers. -/
structure ScanResult where
  fileName : String
  recordsFound : Nat
  err : Option String
deriving Repr, DecidableEq

/-- Set insertion for the `map[string]bool` ledger
(`processedFiles[name] = true`). -/
def insertName (files : List String) (name : String) : List String :=
  if files.contains name then files else files ++ [name]

/-- The result-collection loop of `main` (billingCode.go lines 376-389
and the gzip pipeline `main`): each received result is logged, and the
file is marked processed in memory only when the result carries no
error.  `processedFiles` is the ledger as loaded at start of the run;
the returned set is what `saveProcessedFiles` persists at the end. -/
def collectResults (results : List ScanResult) (processedFiles : List String) :
    List String :=
  results.foldl
    (fun acc res =>
      match res.err with
      | some _ => acc
      | none => insertName acc res.fileName)
    processedFiles

end Pipeline

namespace Gz

open Scan

/-- `StreamingGzipProcessor.processArray`: the element loop after the
opening `[` is consumed.  A decode error terminates the scan of the
file, returning the matches found so far together with the error. -/
def processArray (elems : List DecodeOutcome) (matchCount : Nat)
    (written : List Json) : ScanOutcome :=
  match elems with
  | [] => { count := matchCount, written := written, err := none }
  | Except.error msg :: _ =>
      { count := matchCount, written := written,
        err := some ("failed to decode record: " ++ msg) }
  | Except.ok record :: rest =>
      match billingCodeOf record with
      | some code =>
          if targetCodes.contains code then
            processArray rest (matchCount + 1) (written ++ [record])
          else
            processArray rest matchCount written
      | none => processArray rest matchCount written

/-- `StreamingGzipProcessor.processObjects`: decode objects until EOF
(the end of the outcome list).  A decode error terminates the scan; a
non-matching object is searched recursively for nested matches. -/
def processObjects (objs : List DecodeOutcome) (matchCount : Nat)
    (written : List Json) : ScanOutcome :=
  match objs with
  | [] => { count := matchCount, written := written, err := none }
  | Except.error msg :: _ =>
      { count := matchCount, written := written,
        err := some ("failed to decode record: " ++ msg) }
  | Except.ok record :: rest =>
      match billingCodeOf record with
      | some code =>
          if targetCodes.contains code then
            processObjects rest (matchCount + 1) (written ++ [record])
          else
            let nested := findMatchingObjectsRecursive record
            processObjects rest (matchCount + nested.length) (written ++ nested)
      | none =>
          let nested := findMatchingObjectsRecursive record
          processObjects rest (matchCount + nested.length) (written ++ nested)

/-- `StreamingGzipProcessor.ProcessMatches`: dispatch on the first
non-whitespace byte; a whitespace-only stream makes the peek fail with
EOF. -/
def ProcessMatches (input : ScanInput) : ScanOutcome :=
  match input with
  | ScanInput.empty =>
      { count := 0, written := [], err := some "failed to peek first byte" }
  | ScanInput.array elems => processArray elems 0 []
  | ScanInput.object objs => processObjects objs 0 []
  | ScanInput.other _ =>
      { count := 0, written := [], err := some "unexpected JSON structure" }

end Gz

namespace Decompress

/-! Embedding of `robustDecompress` (the corrupted-gzip salvage
path). -/

/-- Error component of one `gzipReader.Read` call. -/
inductive ReadErr where
  | noErr
  | eof
  | fail (msg : String)
deriving Repr, DecidableEq

/-- One `gzipReader.Read(buffer)` outcome: `n` bytes produced together
with the returned error, plus whether the `output.Write` of those
bytes succeeds (consulted only when `n > 0`). -/
structure ReadEvent where
  n : Nat
  err : ReadErr
  writeOk : Bool
deriving Repr, DecidableEq

/-- The chunk loop of `robustDecompress`: write the produced bytes,
then branch on the read error.  On a non-EOF error the partial result
is kept and `nil` is returned when any bytes were decompressed;
otherwise the error is surfaced.  `Except.ok total` models returning
`nil` with the output file holding `total` decompressed bytes. -/
def robustDecompressLoop (events : List ReadEvent) (totalBytes : Nat) :
    Except String Nat :=
  match events with
  | [] => Except.ok totalBytes
  | e :: rest =>
      if e.n > 0 && !e.writeOk then
        Except.error "failed to write to output"
      else
        let totalBytes := totalBytes + e.n
        match e.err with
        | ReadErr.eof => Except.ok totalBytes
        | ReadErr.fail msg =>
            if totalBytes > 0 then
              Except.ok totalBytes
            else
              Except.error ("error reading gzip: " ++ msg)
        | ReadErr.noErr => robustDecompressLoop rest totalBytes

/-- Setup oracle for `robustDecompress`: whether `os.Open`,
`gzip.NewReader`, `os.MkdirAll` and `os.Create` succeed, and the
sequence of read outcomes of the decompression loop. -/
structure DecompressEnv where
  openOk : Bool
  gzipHeaderOk : Bool
  mkdirOk : Bool
  createOk : Bool
  reads : List ReadEvent

/-- Total number of bytes produced by a sequence of read events. -/
def sumN (events : List ReadEvent) : Nat :=
  (events.map (fun e => e.n)).sum

/-- Go `robustDecompress(gzipFile)`. -/
def robustDecompress (env : DecompressEnv) : Except String Nat :=
  if !env.openOk then Except.error "failed to open file"
  else if !env.gzipHeaderOk then Except.error "failed to create gzip reader"
  else if !env.mkdirOk then Except.error "failed to create output directory"
  else if !env.createOk then Except.error "failed to create output file"
  else robustDecompressLoop env.reads 0

end Decompress

namespace Sched

/-! Interleaving model of the scan-phase worker pool (`worker` in
billingCode.go and in the gzip pipeline).  Each worker repeatedly
takes a file from the jobs channel and runs

  `writerMutex.Lock(); scan the file, writing each matched record;
   flush; writerMutex.Unlock()`

A file is abstracted to `(fileId, n)`: its identifier and the number
of records its scan writes to the shared output (`n = 0` covers files
that fail to scan).  Scanning emits the records one at a time, so an
arbitrary scheduler could interleave writes of different workers were
it not for the mutex.  The scheduler is a small-step relation choosing
any enabled worker at every step. -/

/-- Atomic instructions of a worker, in program order. -/
inductive Instr where
  | lock
  | write (fileId : Nat)
  | flush
  | unlock
deriving Repr, DecidableEq

/-- The instruction block a worker executes for one file `(f, n)`:
acquire the writer mutex, write the file's `n` records, flush, and
release. -/
def fileBlock (f n : Nat) : List Instr :=
  Instr.lock :: (List.replicate n (Instr.write f) ++ [Instr.flush, Instr.unlock])

/-- The whole program of one worker for its sequence of claimed
files. -/
def workerProg (files : List (Nat × Nat)) : List Instr :=
  (files.map (fun p => fileBlock p.1 p.2)).flatten

/-- Global state: the remaining program of each worker, the current
holder of the writer mutex, and the output trace (the `fileId` of each
record written so far, in write order). -/
structure SchedState where
  progs : List (List Instr)
  holder : Option Nat
  out : List Nat

/-- One scheduler step: any worker may execute its next instruction,
except that `lock` requires the mutex to be free and `unlock` is
executed by the holder. -/
inductive WStep : SchedState → SchedState → Prop where
  | lockStep (s : SchedState) (w : Nat) (rest : List Instr)
      (hw : s.progs.get? w = some (Instr.lock :: rest))
      (hfree : s.holder = none) :
      WStep s ⟨s.progs.set w rest, some w, s.out⟩
  | writeStep (s : SchedState) (w f : Nat) (rest : List Instr)
      (hw : s.progs.get? w = some (Instr.write f :: rest)) :
      WStep s ⟨s.progs.set w rest, s.holder, s.out ++ [f]⟩
  | flushStep (s : SchedState) (w : Nat) (rest : List Instr)
      (hw : s.progs.get? w = some (Instr.flush :: rest)) :
      WStep s ⟨s.progs.set w rest, s.holder, s.out⟩
  | unlockStep (s : SchedState) (w : Nat) (rest : List Instr)
      (hw : s.progs.get? w = some (Instr.unlock :: rest))
      (hold : s.holder = some w) :
      WStep s ⟨s.progs.set w rest, none, s.out⟩

/-- Reflexive-transitive closure of the scheduler step. -/
inductive Reaches : SchedState → SchedState → Prop where
  | refl (s : SchedState) : Reaches s s
  | tail (s t u : SchedState) : Reaches s t → WStep t u → Reaches s u

/-- Initial state for a work assignment `A` (one file list per
worker). -/
def initState (A : List (List (Nat × Nat))) : SchedState :=
  ⟨A.map workerProg, none, []⟩

/-- Rendering of a sequence of completed file blocks as an output
trace: the records of each file in one contiguous run. -/
def render (done : List (Nat × Nat)) : List Nat :=
  (done.map (fun p => List.replicate p.2 p.1)).flatten

/-- Remaining program of the mutex holder that is mid-block on file
`f`: `k` writes of the current file still pending, then flush and
unlock, then the worker's later blocks. -/
def midProg (f k : Nat) (files : List (Nat × Nat)) : List Instr :=
  List.replicate k (Instr.write f) ++ Instr.flush :: Instr.unlock :: workerProg files

/-- Remaining program of the mutex holder after its flush: only the
unlock of the current block pending, then the worker's later
blocks. -/
def unlockProg (files : List (Nat × Nat)) : List Instr :=
  Instr.unlock :: workerProg files

/-- Invariant of the worker pool, relating the state to a ghost
decomposition: `done` lists the blocks fully written to the output (in
output order) and each worker's remaining program is its pending file
list, except that the mutex holder may be mid-block.  In every case
the blocks already in the output together with the pending blocks are
a permutation of the full assignment. -/
inductive Inv (AJ : List (Nat × Nat)) : SchedState → Prop where
  | boundary (progs : List (List Instr)) (pend : List (List (Nat × Nat)))
      (done : List (Nat × Nat))
      (hf : List.Forall₂ (fun p fs => p = workerProg fs) progs pend)
      (hperm : (done ++ pend.flatten).Perm AJ) :
      Inv AJ ⟨progs, none, render done⟩
  | mid (ps₁ ps₂ : List (List Instr)) (qs₁ qs₂ : List (List (Nat × Nat)))
      (fsw : List (Nat × Nat)) (done : List (Nat × Nat)) (f n k : Nat)
      (hk : k ≤ n)
      (hf₁ : List.Forall₂ (fun p fs => p = workerProg fs) ps₁ qs₁)
      (hf₂ : List.Forall₂ (fun p fs => p = workerProg fs) ps₂ qs₂)
      (hperm : (done ++ (f, n) :: (qs₁ ++ fsw :: qs₂).flatten).Perm AJ) :
      Inv AJ ⟨ps₁ ++ midProg f k fsw :: ps₂, some ps₁.length,
              render done ++ List.replicate (n - k) f⟩
  | preUnlock (ps₁ ps₂ : List (List Instr)) (qs₁ qs₂ : List (List (Nat × Nat)))
      (fsw : List (Nat × Nat)) (done : List (Nat × Nat))
      (hf₁ : List.Forall₂ (fun p fs => p = workerProg fs) ps₁ qs₁)
      (hf₂ : List.Forall₂ (fun p fs => p = workerProg fs) ps₂ qs₂)
      (hperm : (done ++ (qs₁ ++ fsw :: qs₂).flatten).Perm AJ) :
      Inv AJ ⟨ps₁ ++ unlockProg fsw :: ps₂, some ps₁.length, render done⟩

end Sched

/-! ## Theorems -/

open Fetcher Scan Pipeline Gz Decompress Sched

namespace Fetcher

theorem loadURLs_foldl (lines : List String) (acc : List String) :
    lines.foldl
      (fun urls line =>
        if (line != "") && !(line.startsWith "#") then
          let cleanedURL := fixUnicodeEscapes line
          if isURL cleanedURL then urls ++ [cleanedURL] else urls
        else urls)
      acc =
    acc ++ (lines.filter
        (fun line => ((line != "") && !(line.startsWith "#")) &&
          isURL (fixUnicodeEscapes line))).map fixUnicodeEscapes := by
  induction lines generalizing acc with
  | nil => simp
  | cons l ls ih =>
      simp only [List.foldl_cons]
      rw [ih, List.filter_cons]
      by_cases h₁ : ((l != "") && !(l.startsWith "#")) = true
      · by_cases h₂ : isURL (fixUnicodeEscapes l) = true
        · simp only [h₁, h₂, if_true, Bool.true_and, Bool.and_true]
          simp
        · simp only [h₁, h₂, if_true, Bool.true_and, Bool.and_false, if_false]
          simp [h₂]
      · simp only [h₁, if_false, Bool.false_and]
        simp [h₁]

theorem backoff_pos_eq (attempt : Int) (config : RetryConfig) (u : ℚ)
    (h : 0 < attempt) :
    calculateBackoffDelay attempt config u =
      min config.maxDelay
        (config.initialDelay * config.backoffFactor ^ attempt.toNat *
          (1 + config.jitterFactor * u)) := by
  unfold calculateBackoffDelay
  rw [if_neg (by omega)]
  have hring :
      config.initialDelay * config.backoffFactor ^ attempt.toNat +
        config.initialDelay * config.backoffFactor ^ attempt.toNat *
          config.jitterFactor * u =
      config.initialDelay * config.backoffFactor ^ attempt.toNat *
        (1 + config.jitterFactor * u) := by ring
  simp only [hring]
  rcases le_or_lt
      (config.initialDelay * config.backoffFactor ^ attempt.toNat *
        (1 + config.jitterFactor * u)) config.maxDelay with hle | hgt
  · rw [if_neg (not_lt.mpr hle), min_eq_right hle]
  · rw [if_pos hgt, min_eq_left hgt.le]

end Fetcher

/-- C9: `isRetryableHTTPStatus` returns `true` exactly on the status
codes 429, 500, 502, 503 and 504, and `false` on every other
integer. -/
theorem claim_C9_retryable_status (code : Int) :
    isRetryableHTTPStatus code = true ↔
      code = 429 ∨ code = 500 ∨ code = 502 ∨ code = 503 ∨ code = 504 := by
  simp [isRetryableHTTPStatus, retryableStatusCodes]

/-- C3: `isRetryableError` returns `true` exactly when the error is
non-nil and its lowercased text matches one of the six closed
transient categories (timeout, connection reset, connection refused,
temporary failure, no route to host, network is unreachable); every
other error — including `nil` — is classified permanent (`false`).
"Matching a category" is the containment test the classifier performs
against that category's fixed string. -/
theorem claim_C3_retryable_error (err : Option String) :
    isRetryableError err = true ↔
      ∃ s, err = some s ∧
        (strContains (strToLower s) "timeout" = true ∨
         strContains (strToLower s) "connection reset" = true ∨
         strContains (strToLower s) "connection refused" = true ∨
         strContains (strToLower s) "temporary failure" = true ∨
         strContains (strToLower s) "no route to host" = true ∨
         strContains (strToLower s) "network is unreachable" = true) := by
  cases err with
  | none => simp [isRetryableError]
  | some s =>
      simp only [isRetryableError, retryableErrors, List.any_eq_true]
      constructor
      · rintro ⟨r, hr, hc⟩
        refine ⟨s, rfl, ?_⟩
        simp only [List.mem_cons, List.not_mem_nil, or_false] at hr
        rcases hr with h | h | h | h | h | h <;> subst h <;> tauto
      · rintro ⟨t, ht, hc⟩
        cases ht
        rcases hc with h | h | h | h | h | h
        · exact ⟨"timeout", by simp, h⟩
        · exact ⟨"connection reset", by simp, h⟩
        · exact ⟨"connection refused", by simp, h⟩
        · exact ⟨"temporary failure", by simp, h⟩
        · exact ⟨"no route to host", by simp, h⟩
        · exact ⟨"network is unreachable", by simp, h⟩

/-- C10: `loadURLsFromFile` returns, in input order, exactly the lines
that are non-empty, do not start with `#`, and — after the Unicode
escape replacement — begin with `http://` or `https://` (returned in
their replaced form); every other line is silently dropped, with no
error reported. -/
theorem claim_C10_load_urls (lines : List String) :
    loadURLsFromFile lines =
      (lines.filter
        (fun line => ((line != "") && !(line.startsWith "#")) &&
          isURL (fixUnicodeEscapes line))).map fixUnicodeEscapes := by
  unfold loadURLsFromFile
  simpa using Fetcher.loadURLs_foldl lines []

/-- C4 counterexample: with `initialDelay = 50` and `maxDelay = 30`,
attempt 0 returns 50, which exceeds `maxDelay` — so over all retry
configurations the returned delay is not bounded by `maxDelay`. -/
theorem claim_C4_counterexample :
    calculateBackoffDelay 0 ⟨3, 50, 30, 2, 0⟩ 0 = 50 ∧
      ¬ (calculateBackoffDelay 0 ⟨3, 50, 30, 2, 0⟩ 0 ≤ (⟨3, 50, 30, 2, 0⟩ : RetryConfig).maxDelay) := by
  constructor
  · norm_num [calculateBackoffDelay]
  · norm_num [calculateBackoffDelay]

/-- C4 (amended): for every retry configuration with
`0 ≤ initialDelay ≤ maxDelay` and `backoffFactor ≥ 1` (as the
program's `defaultRetryConfig` satisfies), `calculateBackoffDelay`
returns `initialDelay` for attempt ≤ 0 and
`min maxDelay (initialDelay * backoffFactor^k * (1 + jitterFactor*u))`
for attempt k > 0, where `u ∈ [-1,1]` is the uniform draw (so the
multiplicative perturbation lies in `[-jitterFactor, +jitterFactor]`);
the unperturbed delay is non-decreasing in the attempt number and the
returned delay never exceeds `maxDelay`. -/
theorem claim_C4_backoff (config : RetryConfig) (u : ℚ)
    (h₀ : 0 ≤ config.initialDelay)
    (h₁ : config.initialDelay ≤ config.maxDelay)
    (hfac : 1 ≤ config.backoffFactor) :
    (∀ attempt : Int, attempt ≤ 0 →
        calculateBackoffDelay attempt config u = config.initialDelay) ∧
    (∀ attempt : Int, 0 < attempt →
        calculateBackoffDelay attempt config u =
          min config.maxDelay
            (config.initialDelay * config.backoffFactor ^ attempt.toNat *
              (1 + config.jitterFactor * u))) ∧
    (∀ j k : Int, j ≤ k →
        unperturbedDelay j config ≤ unperturbedDelay k config) ∧
    (∀ attempt : Int, calculateBackoffDelay attempt config u ≤ config.maxDelay) := by
  have hpow : ∀ m : Nat, (1 : ℚ) ≤ config.backoffFactor ^ m := by
    intro m
    exact one_le_pow₀ hfac
  have hbase : ∀ (a : Int) (v : ℚ), a ≤ 0 →
      calculateBackoffDelay a config v = config.initialDelay := by
    intro a v ha
    unfold calculateBackoffDelay
    rw [if_pos ha]
  have hposeq := fun (a : Int) (ha : 0 < a) => Fetcher.backoff_pos_eq a config u ha
  refine ⟨fun a ha => hbase a u ha, hposeq, ?_, ?_⟩
  · intro j k hjk
    unfold unperturbedDelay
    rcases le_or_lt j 0 with hj | hj
    · rcases le_or_lt k 0 with hk | hk
      · rw [hbase j 0 hj, hbase k 0 hk]
      · rw [hbase j 0 hj, Fetcher.backoff_pos_eq k config 0 hk]
        refine le_min h₁ ?_
        simp only [mul_zero, add_zero, mul_one]
        calc config.initialDelay
            = config.initialDelay * 1 := by ring
          _ ≤ config.initialDelay * config.backoffFactor ^ k.toNat :=
              mul_le_mul_of_nonneg_left (hpow k.toNat) h₀
    · have hk : 0 < k := lt_of_lt_of_le hj hjk
      rw [Fetcher.backoff_pos_eq j config 0 hj, Fetcher.backoff_pos_eq k config 0 hk]
      refine min_le_min le_rfl ?_
      simp only [mul_zero, add_zero, mul_one]
      refine mul_le_mul_of_nonneg_left ?_ h₀
      exact pow_le_pow_right₀ hfac (by omega)
  · intro a
    rcases le_or_lt a 0 with ha | ha
    · rw [hbase a u ha]; exact h₁
    · rw [Fetcher.backoff_pos_eq a config u ha]
      exact min_le_left _ _

/-- C4 witness: the amended statement instantiated at the program's
default configuration. -/
theorem claim_C4_backoff_witness :
    calculateBackoffDelay 2 defaultRetryConfig 0 ≤ defaultRetryConfig.maxDelay := by
  exact (claim_C4_backoff defaultRetryConfig 0
    (by norm_num [defaultRetryConfig])
    (by norm_num [defaultRetryConfig])
    (by norm_num [defaultRetryConfig])).2.2.2 2

namespace Decompress

theorem loop_cons (e : ReadEvent) (rest : List ReadEvent) (acc : Nat) :
    robustDecompressLoop (e :: rest) acc =
      if (decide (e.n > 0) && !e.writeOk) = true then
        Except.error "failed to write to output"
      else
        match e.err with
        | ReadErr.eof => Except.ok (acc + e.n)
        | ReadErr.fail msg =>
            if acc + e.n > 0 then Except.ok (acc + e.n)
            else Except.error ("error reading gzip: " ++ msg)
        | ReadErr.noErr => robustDecompressLoop rest (acc + e.n) := rfl

theorem loop_first_fail (pre : List ReadEvent) (e : ReadEvent) (rest : List ReadEvent)
    (msg : String) (acc : Nat)
    (hpre : ∀ ev ∈ pre, ev.err = ReadErr.noErr ∧ (0 < ev.n → ev.writeOk = true))
    (hw : 0 < e.n → e.writeOk = true)
    (he : e.err = ReadErr.fail msg) :
    robustDecompressLoop (pre ++ e :: rest) acc =
      if acc + sumN pre + e.n > 0 then Except.ok (acc + sumN pre + e.n)
      else Except.error ("error reading gzip: " ++ msg) := by
  induction pre generalizing acc with
  | nil =>
      simp only [List.nil_append, sumN, List.map_nil, List.sum_nil, Nat.add_zero]
      unfold robustDecompressLoop
      have hcond : (decide (e.n > 0) && !e.writeOk) = false := by
        rcases Nat.eq_zero_or_pos e.n with h0 | hpos
        · simp [h0]
        · simp [hw hpos]
      simp only [hcond, Bool.false_eq_true, if_false, he]
  | cons ev pre ih =>
      have hev := hpre ev (List.mem_cons_self ev pre)
      have hrest : ∀ x ∈ pre, x.err = ReadErr.noErr ∧ (0 < x.n → x.writeOk = true) :=
        fun x hx => hpre x (List.mem_cons_of_mem ev hx)
      have hcond : (decide (ev.n > 0) && !ev.writeOk) = false := by
        rcases Nat.eq_zero_or_pos ev.n with h0 | hpos
        · simp [h0]
        · simp [hev.2 hpos]
      rw [List.cons_append, loop_cons]
      simp only [hcond, Bool.false_eq_true, if_false, hev.1]
      rw [ih (acc + ev.n) hrest]
      have harith : acc + ev.n + sumN pre = acc + sumN (ev :: pre) := by
        simp only [sumN, List.map_cons, List.sum_cons]
        omega
      rw [harith]

end Decompress

/-- C7: for any run of `robustDecompress` whose setup succeeds and
whose read sequence hits a non-EOF error after a clean prefix, the
function returns `nil` with the partial output retained whenever at
least one byte was decompressed and written, and returns an error when
zero bytes were decompressed. -/
theorem claim_C7_salvage (env : DecompressEnv) (pre : List ReadEvent)
    (e : ReadEvent) (rest : List ReadEvent) (msg : String)
    (hopen : env.openOk = true) (hgz : env.gzipHeaderOk = true)
    (hmk : env.mkdirOk = true) (hcr : env.createOk = true)
    (hreads : env.reads = pre ++ e :: rest)
    (hpre : ∀ ev ∈ pre, ev.err = Decompress.ReadErr.noErr ∧ (0 < ev.n → ev.writeOk = true))
    (hw : 0 < e.n → e.writeOk = true)
    (he : e.err = Decompress.ReadErr.fail msg) :
    (0 < sumN pre + e.n →
        robustDecompress env = Except.ok (sumN pre + e.n)) ∧
    (sumN pre + e.n = 0 →
        robustDecompress env = Except.error ("error reading gzip: " ++ msg)) := by
  unfold robustDecompress
  simp only [hopen, hgz, hmk, hcr, Bool.not_true, Bool.false_eq_true, if_false]
  rw [hreads, Decompress.loop_first_fail pre e rest msg 0 hpre hw he]
  simp only [Nat.zero_add]
  constructor
  · intro h
    rw [if_pos (by omega)]
  · intro h
    rw [if_neg (by omega)]

/-- C7 witness: a stream delivering 5 bytes and then failing is
salvaged as a successful 5-byte partial decompression. -/
theorem claim_C7_salvage_witness :
    robustDecompress ⟨true, true, true, true,
      [⟨5, Decompress.ReadErr.noErr, true⟩,
       ⟨0, Decompress.ReadErr.fail "unexpected EOF", true⟩]⟩ = Except.ok 5 := by
  exact (claim_C7_salvage
    ⟨true, true, true, true,
      [⟨5, Decompress.ReadErr.noErr, true⟩,
       ⟨0, Decompress.ReadErr.fail "unexpected EOF", true⟩]⟩
    [⟨5, Decompress.ReadErr.noErr, true⟩]
    ⟨0, Decompress.ReadErr.fail "unexpected EOF", true⟩
    [] "unexpected EOF" rfl rfl rfl rfl rfl
    (by decide) (by decide) rfl).1 (by decide)

namespace Pipeline

theorem collect_cons (r : ScanResult) (rs : List ScanResult) (acc : List String) :
    collectResults (r :: rs) acc =
      collectResults rs
        (match r.err with
         | some _ => acc
         | none => insertName acc r.fileName) := rfl

theorem collect_append (rs₁ rs₂ : List ScanResult) (acc : List String) :
    collectResults (rs₁ ++ rs₂) acc = collectResults rs₂ (collectResults rs₁ acc) := by
  unfold collectResults
  rw [List.foldl_append]

theorem mem_insertName (files : List String) (m n : String) (h : n ∈ files) :
    n ∈ insertName files m := by
  unfold insertName
  split
  · exact h
  · exact List.mem_append_left _ h

theorem mem_insertName_self (files : List String) (n : String) :
    n ∈ insertName files n := by
  unfold insertName
  split
  · next h => simpa using h
  · exact List.mem_append_right _ (List.mem_singleton.mpr rfl)

theorem collect_mono (results : List ScanResult) (acc : List String) (n : String)
    (h : n ∈ acc) : n ∈ collectResults results acc := by
  induction results generalizing acc with
  | nil => exact h
  | cons r rs ih =>
      rw [collect_cons]
      cases hr : r.err with
      | some m => simp only [hr]; exact ih _ h
      | none => simp only [hr]; exact ih _ (mem_insertName _ _ _ h)

end Pipeline

/-- C1 counterexample: a file whose scan attempt completed with an
error is not present in the processed set the run persists. -/
theorem claim_C1_counterexample :
    ¬ ("corrupt.json" ∈
        collectResults [⟨"corrupt.json", 0, some "failed to decode root object"⟩] []) := by
  decide

/-- C1 (amended): after the result-collection loop, every candidate
file whose scan attempt completed without error is present in the
in-memory processed set (and hence in the ledger persisted from it); a
file whose scan returned an error is not marked processed; and a file
name entering the set — whether carried over from the loaded ledger or
added during the run — is never removed as further results arrive. -/
theorem claim_C1_ledger (results : List Pipeline.ScanResult) (initial : List String) :
    (∀ r ∈ results, r.err = none → r.fileName ∈ collectResults results initial) ∧
    (∀ n ∈ initial, n ∈ collectResults results initial) ∧
    (∀ (rs₂ : List Pipeline.ScanResult) (n : String),
        n ∈ collectResults results initial →
        n ∈ collectResults (results ++ rs₂) initial) := by
  refine ⟨?_, ?_, ?_⟩
  · intro r hr hnone
    induction results generalizing initial with
    | nil => cases hr
    | cons x rs ih =>
        rw [Pipeline.collect_cons]
        rcases List.mem_cons.mp hr with hx | hx
        · subst hx
          simp only [hnone]
          exact Pipeline.collect_mono rs _ _ (Pipeline.mem_insertName_self initial r.fileName)
        · cases hxe : x.err with
          | some m => simp only [hxe]; exact ih _ hx
          | none => simp only [hxe]; exact ih _ hx
  · intro n hn
    exact Pipeline.collect_mono results initial n hn
  · intro rs₂ n hn
    rw [Pipeline.collect_append]
    exact Pipeline.collect_mono rs₂ _ n hn

/-- C1 witness: a successfully scanned file is in the processed
set. -/
theorem claim_C1_ledger_witness :
    "a.json" ∈ collectResults [⟨"a.json", 2, none⟩] [] := by
  exact (claim_C1_ledger [⟨"a.json", 2, none⟩] []).1 ⟨"a.json", 2, none⟩
    (List.mem_singleton.mpr rfl) rfl

namespace Pipeline

theorem arrayLoop_skip (pre post : List Scan.DecodeOutcome) (msg : String)
    (c : Nat) (w : List Scan.Json) :
    arrayLoop (pre ++ Except.error msg :: post) c w = arrayLoop (pre ++ post) c w := by
  induction pre generalizing c w with
  | nil => rfl
  | cons x pre ih =>
      cases x with
      | error m =>
          simp only [List.cons_append, arrayLoop]
          exact ih _ _
      | ok record =>
          simp only [List.cons_append, arrayLoop]
          cases hb : billingCodeOf record with
          | some code =>
              by_cases hc : targetCodes.contains code = true
              · simp only [hc, if_true]
                exact ih _ _
              · simp only [hc, if_false]
                exact ih _ _
          | none => exact ih _ _

end Pipeline

namespace Gz

theorem processArray_stop (pre post : List Scan.DecodeOutcome) (msg : String)
    (c : Nat) (w : List Scan.Json) :
    processArray (pre ++ Except.error msg :: post) c w =
      processArray (pre ++ [Except.error msg]) c w ∧
    (processArray (pre ++ Except.error msg :: post) c w).err ≠ none := by
  induction pre generalizing c w with
  | nil => exact ⟨rfl, by simp [processArray]⟩
  | cons x pre ih =>
      cases x with
      | error m => exact ⟨rfl, by simp [processArray]⟩
      | ok record =>
          simp only [List.cons_append, processArray]
          cases hb : billingCodeOf record with
          | some code =>
              by_cases hc : targetCodes.contains code = true
              · simp only [hc, if_true]
                exact ih _ _
              · simp only [hc, if_false]
                exact ih _ _
          | none => exact ih _ _

theorem processObjects_stop (pre post : List Scan.DecodeOutcome) (msg : String)
    (c : Nat) (w : List Scan.Json) :
    processObjects (pre ++ Except.error msg :: post) c w =
      processObjects (pre ++ [Except.error msg]) c w ∧
    (processObjects (pre ++ Except.error msg :: post) c w).err ≠ none := by
  induction pre generalizing c w with
  | nil => exact ⟨rfl, by simp [processObjects]⟩
  | cons x pre ih =>
      cases x with
      | error m => exact ⟨rfl, by simp [processObjects]⟩
      | ok record =>
          simp only [List.cons_append, processObjects]
          cases hb : billingCodeOf record with
          | some code =>
              by_cases hc : targetCodes.contains code = true
              · simp only [hc, if_true]
                exact ih _ _
              · simp only [hc, if_false]
                exact ih _ _
          | none => exact ih _ _

end Gz

/-- C2 counterexample: for a top-level-array input scanned by the
streaming gzip scanner, a decode error on the first element does not
skip that element and continue — it terminates the scan of the file
with an error result, so a later matching element yields no match. -/
theorem claim_C2_counterexample :
    Gz.ProcessMatches
        (Scan.ScanInput.array
          [Except.error "unexpected token",
           Except.ok (Scan.Json.obj [("billing_code", Scan.Json.str "99283")])]) =
      { count := 0, written := [],
        err := some "failed to decode record: unexpected token" } := rfl

/-- C2 (amended): in the plain-JSON scanner
(`processFileAndWriteMatches`), a decode error on an array element is
skipped with a warning and scanning of the remaining elements
continues — the scan result is as if the offending element were
absent; in the streaming gzip scanner, a decode error in array mode
terminates the scan of that file with an error result, ignoring
everything after the failing element; and in object / object-stream
mode a decode error terminates the scan with an error result in both
scanners. -/
theorem claim_C2_decode_errors :
    (∀ (pre post : List Scan.DecodeOutcome) (msg : String),
        processFileAndWriteMatches (Scan.ScanInput.array (pre ++ Except.error msg :: post)) =
          processFileAndWriteMatches (Scan.ScanInput.array (pre ++ post))) ∧
    (∀ (pre post : List Scan.DecodeOutcome) (msg : String) (c : Nat) (w : List Scan.Json),
        processArray (pre ++ Except.error msg :: post) c w =
          processArray (pre ++ [Except.error msg]) c w ∧
        (processArray (pre ++ Except.error msg :: post) c w).err ≠ none) ∧
    (∀ (objs : List Scan.DecodeOutcome) (msg : String),
        (processFileAndWriteMatches (Scan.ScanInput.object (Except.error msg :: objs))).err =
          some ("failed to decode root object: " ++ msg)) ∧
    (∀ (pre post : List Scan.DecodeOutcome) (msg : String) (c : Nat) (w : List Scan.Json),
        processObjects (pre ++ Except.error msg :: post) c w =
          processObjects (pre ++ [Except.error msg]) c w ∧
        (processObjects (pre ++ Except.error msg :: post) c w).err ≠ none) := by
  refine ⟨?_, Gz.processArray_stop, fun objs msg => rfl, Gz.processObjects_stop⟩
  intro pre post msg
  simp only [processFileAndWriteMatches, Pipeline.arrayLoop_skip]

/-- C2 witness: a malformed element inside a plain-JSON array input is
skipped and the remaining elements are still scanned. -/
theorem claim_C2_decode_errors_witness :
    processFileAndWriteMatches
        (Scan.ScanInput.array
          [Except.error "bad element",
           Except.ok (Scan.Json.obj [("billing_code", Scan.Json.str "99283")])]) =
      processFileAndWriteMatches
        (Scan.ScanInput.array
          [Except.ok (Scan.Json.obj [("billing_code", Scan.Json.str "99283")])]) := by
  exact claim_C2_decode_errors.1 []
    [Except.ok (Scan.Json.obj [("billing_code", Scan.Json.str "99283")])] "bad element"

namespace Fetcher

theorem downloadFiles_cons (cfg : RetryConfig) (t : DownloadTask)
    (ts : List DownloadTask) (d : String) (m : List String) :
    downloadFiles cfg (t :: ts) d m =
      ((downloadFile cfg t.urlString d m t.parsedPath t.envs).1 ::
        (downloadFiles cfg ts d m).1,
       (Effect.sleep :: (downloadFile cfg t.urlString d m t.parsedPath t.envs).2) ++
        (downloadFiles cfg ts d m).2) := rfl

end Fetcher

/-- C5: a download task whose destination file name is in the
pre-built existing-file index returns a successful result carrying the
destination path and zero retries, with an empty effect trace (no HTTP
request, no filesystem operation); consequently a fetch run whose
tasks all have their destination names in the index reports every task
successful and its whole trace contains no HTTP request and no
filesystem operation (only the per-task pacing sleeps). -/
theorem claim_C5_short_circuit :
    (∀ (cfg : RetryConfig) (urlString downloadDir path : String)
        (m : List String) (envs : List AttemptEnv),
        m.contains (filenameFromPath path) = true →
        downloadFile cfg urlString downloadDir m (some path) envs =
          ({ url := urlString, success := true, error := none,
             filePath := filepathJoin downloadDir (filenameFromPath path),
             retries := 0 }, [])) ∧
    (∀ (cfg : RetryConfig) (tasks : List DownloadTask) (downloadDir : String)
        (m : List String),
        (∀ t ∈ tasks, ∃ p, t.parsedPath = some p ∧
            m.contains (filenameFromPath p) = true) →
        (downloadFiles cfg tasks downloadDir m).1.all (fun r => r.success) = true ∧
        (downloadFiles cfg tasks downloadDir m).2.all
          (fun e => !isHttpGetEffect e && !isFilesystemEffect e) = true) := by
  have hsingle : ∀ (cfg : RetryConfig) (urlString downloadDir path : String)
      (m : List String) (envs : List AttemptEnv),
      m.contains (filenameFromPath path) = true →
      downloadFile cfg urlString downloadDir m (some path) envs =
        ({ url := urlString, success := true, error := none,
           filePath := filepathJoin downloadDir (filenameFromPath path),
           retries := 0 }, []) := by
    intro cfg u d p m envs h
    unfold downloadFile
    simp only [h, if_true]
  refine ⟨hsingle, ?_⟩
  intro cfg tasks d m h
  induction tasks with
  | nil => exact ⟨rfl, rfl⟩
  | cons t ts ih =>
      obtain ⟨p, hp, hm⟩ := h t (List.mem_cons_self t ts)
      have ihr := ih (fun x hx => h x (List.mem_cons_of_mem t hx))
      rw [Fetcher.downloadFiles_cons, hp, hsingle cfg t.urlString d p m t.envs hm]
      constructor
      · simp only [List.all_cons, ihr.1, Bool.and_true]
      · rw [List.all_append, ihr.2]
        rfl

/-- C5 witness: a concrete task whose destination name is already in
the index short-circuits to success with an empty effect trace. -/
theorem claim_C5_short_circuit_witness :
    downloadFile defaultRetryConfig "https://host/files/a.gz" "downloads"
        ["a.gz"] (some "/files/a.gz") [] =
      ({ url := "https://host/files/a.gz", success := true, error := none,
         filePath := filepathJoin "downloads" (filenameFromPath "/files/a.gz"),
         retries := 0 }, []) := by
  exact claim_C5_short_circuit.1 defaultRetryConfig "https://host/files/a.gz"
    "downloads" "/files/a.gz" ["a.gz"] [] (by decide)

/-- C6: inside any attempt of the download loop that reaches local
I/O, a failure to create the destination file, or to write the body to
it, ends the loop at once with a failed result (the remaining oracle —
hence any further retry — is never consulted); on a write failure the
partially written destination file is removed, as the final effect
before the error is returned. -/
theorem claim_C6_local_io :
    (∀ (cfg : RetryConfig) (urlString filePath : String) (e : AttemptEnv)
        (rest : List AttemptEnv) (attempt : Nat) (res : DownloadResult),
        e.http = HTTPResult.response 200 → e.createOk = false →
        downloadAttempts cfg urlString filePath (e :: rest) attempt res =
          ({ res with error := some "failed to create file", retries := attempt },
           (if attempt > 0 then [Effect.sleep] else []) ++
             [Effect.httpGet urlString, Effect.fileCreate filePath])) ∧
    (∀ (cfg : RetryConfig) (urlString filePath : String) (e : AttemptEnv)
        (rest : List AttemptEnv) (attempt : Nat) (res : DownloadResult),
        e.http = HTTPResult.response 200 → e.createOk = true → e.copyOk = false →
        downloadAttempts cfg urlString filePath (e :: rest) attempt res =
          ({ res with error := some "failed to write file", retries := attempt },
           (if attempt > 0 then [Effect.sleep] else []) ++
             [Effect.httpGet urlString, Effect.fileCreate filePath,
              Effect.fileWrite filePath, Effect.fileRemove filePath])) := by
  constructor
  · intro cfg u fp e rest attempt res hhttp hcreate
    unfold downloadAttempts
    simp [hhttp, hcreate]
  · intro cfg u fp e rest attempt res hhttp hcreate hcopy
    unfold downloadAttempts
    simp [hhttp, hcreate, hcopy]

/-- C6 witness: a concrete create-failure attempt returns immediately
with a failed result and no retry. -/
theorem claim_C6_local_io_witness :
    downloadAttempts defaultRetryConfig "u" "p"
        [⟨HTTPResult.response 200, false, true⟩] 0
        ⟨"u", false, none, "", 0⟩ =
      (⟨"u", false, some "failed to create file", "", 0⟩,
       [Effect.httpGet "u", Effect.fileCreate "p"]) := by
  have h := claim_C6_local_io.1 defaultRetryConfig "u" "p"
      ⟨HTTPResult.response 200, false, true⟩ [] 0 ⟨"u", false, none, "", 0⟩ rfl rfl
  simpa using h

namespace Sched

theorem workerProg_nil : workerProg [] = [] := rfl

theorem workerProg_cons (f n : Nat) (files : List (Nat × Nat)) :
    workerProg ((f, n) :: files) = fileBlock f n ++ workerProg files := rfl

theorem workerProg_head (files : List (Nat × Nat)) (i : Instr) (rest : List Instr)
    (h : workerProg files = i :: rest) : i = Instr.lock := by
  cases files with
  | nil => simp [workerProg] at h
  | cons p fs =>
      obtain ⟨f, n⟩ := p
      rw [workerProg_cons] at h
      simp only [fileBlock, List.cons_append] at h
      exact (List.cons.injEq _ _ _ _ ▸ h).1.symm

theorem workerProg_eq_nil (files : List (Nat × Nat)) (h : workerProg files = []) :
    files = [] := by
  cases files with
  | nil => rfl
  | cons p fs =>
      obtain ⟨f, n⟩ := p
      rw [workerProg_cons] at h
      simp [fileBlock] at h

theorem midProg_ne_nil (f k : Nat) (files : List (Nat × Nat)) :
    midProg f k files ≠ [] := by
  cases k <;> simp [midProg]

theorem unlockProg_ne_nil (files : List (Nat × Nat)) : unlockProg files ≠ [] := by
  simp [unlockProg]

theorem render_append (done : List (Nat × Nat)) (f n : Nat) :
    render (done ++ [(f, n)]) = render done ++ List.replicate n f := by
  simp [render]

theorem forall₂_get {R : List Instr → List (Nat × Nat) → Prop}
    {l₁ : List (List Instr)} {l₂ : List (List (Nat × Nat))}
    (h : List.Forall₂ R l₁ l₂) :
    ∀ (i : Nat) (a : List Instr), l₁.get? i = some a → ∃ b, l₂.get? i = some b ∧ R a b := by
  induction h with
  | nil => intro i a ha; simp at ha
  | cons hr htail ih =>
      intro i a ha
      cases i with
      | zero =>
          simp only [List.get?_cons_zero, Option.some.injEq] at ha
          subst ha
          exact ⟨_, rfl, hr⟩
      | succ j =>
          simp only [List.get?_cons_succ] at ha
          exact ih j a ha

theorem forall₂_split {R : List Instr → List (Nat × Nat) → Prop}
    {l₁ : List (List Instr)} {l₂ : List (List (Nat × Nat))}
    (h : List.Forall₂ R l₁ l₂) :
    ∀ (i : Nat) (a : List Instr), l₁.get? i = some a →
      ∃ xs ys us vs b, l₁ = xs ++ a :: ys ∧ l₂ = us ++ b :: vs ∧
        xs.length = i ∧ us.length = i ∧ R a b ∧
        List.Forall₂ R xs us ∧ List.Forall₂ R ys vs := by
  induction h with
  | nil => intro i a ha; simp at ha
  | @cons p q l₁ l₂ hr htail ih =>
      intro i a ha
      cases i with
      | zero =>
          simp only [List.get?_cons_zero, Option.some.injEq] at ha
          subst ha
          exact ⟨[], l₁, [], l₂, q, rfl, rfl, rfl, rfl, hr, List.Forall₂.nil, htail⟩
      | succ j =>
          simp only [List.get?_cons_succ] at ha
          obtain ⟨xs, ys, us, vs, b, h₁, h₂, h₃, h₄, h₅, h₆, h₇⟩ := ih j a ha
          exact ⟨p :: xs, ys, q :: us, vs, b, by rw [h₁]; rfl, by rw [h₂]; rfl,
            by simp [h₃], by simp [h₄], h₅, List.Forall₂.cons hr h₆, h₇⟩

theorem set_mid {α : Type} (l₁ : List α) (a b : α) (l₂ : List α) :
    (l₁ ++ a :: l₂).set l₁.length b = l₁ ++ b :: l₂ := by
  induction l₁ with
  | nil => rfl
  | cons x xs ih => simp [List.set, ih]

theorem get_mid {α : Type} (l₁ : List α) (a : α) (l₂ : List α) :
    (l₁ ++ a :: l₂).get? l₁.length = some a := by
  induction l₁ with
  | nil => rfl
  | cons x xs ih => simpa using ih

theorem split_get {R : List Instr → List (Nat × Nat) → Prop}
    (ps₁ ps₂ : List (List Instr)) (x : List Instr)
    (qs₁ qs₂ : List (List (Nat × Nat)))
    (hf₁ : List.Forall₂ R ps₁ qs₁) (hf₂ : List.Forall₂ R ps₂ qs₂)
    (v : Nat) (p : List Instr)
    (hg : (ps₁ ++ x :: ps₂).get? v = some p) :
    (v = ps₁.length ∧ p = x) ∨ (∃ q, R p q) := by
  rcases lt_trichotomy v ps₁.length with hv | hv | hv
  · rw [List.get?_append hv] at hg
    obtain ⟨b, _, hr⟩ := forall₂_get hf₁ v p hg
    exact Or.inr ⟨b, hr⟩
  · subst hv
    rw [get_mid] at hg
    exact Or.inl ⟨rfl, (Option.some.injEq _ _ ▸ hg).symm⟩
  · rw [List.get?_append_right (Nat.le_of_lt hv)] at hg
    have hpos : 0 < v - ps₁.length := by omega
    obtain ⟨m, hm⟩ := Nat.exists_eq_add_of_lt hpos
    rw [show v - ps₁.length = m + 1 by omega] at hg
    simp only [List.get?_cons_succ] at hg
    obtain ⟨b, _, hr⟩ := forall₂_get hf₂ m p hg
    exact Or.inr ⟨b, hr⟩

end Sched

namespace Sched

theorem flatten_split_eq (us vs : List (List (Nat × Nat)))
    (f n : Nat) (fsw : List (Nat × Nat)) :
    (us ++ ((f, n) :: fsw) :: vs).flatten =
      us.flatten ++ (f, n) :: (fsw ++ vs.flatten) := by
  simp [List.flatten_append, List.append_assoc]

theorem flatten_mid_eq (us vs : List (List (Nat × Nat))) (fsw : List (Nat × Nat)) :
    (us ++ fsw :: vs).flatten = us.flatten ++ (fsw ++ vs.flatten) := by
  simp [List.flatten_append, List.append_assoc]

theorem inv_step (AJ : List (Nat × Nat)) (s t : SchedState)
    (hinv : Inv AJ s) (hstep : WStep s t) : Inv AJ t := by
  cases hstep with
  | lockStep w rest hw hfree =>
      cases hinv with
      | boundary progs pend done hf hperm =>
          dsimp only at hw ⊢
          obtain ⟨xs, ys, us, vs, fs, he₁, he₂, hlen, hlen', hr, hxs, hys⟩ :=
            forall₂_split hf w _ hw
          cases fs with
          | nil => rw [workerProg_nil] at hr; simp at hr
          | cons q fs' =>
              obtain ⟨f, n⟩ := q
              rw [workerProg_cons] at hr
              simp only [fileBlock, List.cons_append, List.cons.injEq] at hr
              have hrest : rest = midProg f n fs' := by
                rw [hr.2]
                simp [midProg, List.append_assoc]
              subst he₁
              subst he₂
              subst hrest
              subst hlen
              rw [set_mid]
              have hout : render done = render done ++ List.replicate (n - n) f := by
                simp
              rw [hout]
              refine Inv.mid xs ys us vs fs' done f n n le_rfl hxs hys ?_
              rw [flatten_mid_eq]
              refine List.Perm.trans
                (List.Perm.append_left done List.perm_middle.symm) ?_
              rw [← flatten_split_eq]
              exact hperm
      | mid ps₁ ps₂ qs₁ qs₂ fsw done f n k hk hf₁ hf₂ hperm =>
          exact absurd hfree (by simp)
      | preUnlock ps₁ ps₂ qs₁ qs₂ fsw done hf₁ hf₂ hperm =>
          exact absurd hfree (by simp)
  | writeStep w f' rest hw =>
      cases hinv with
      | boundary progs pend done hf hperm =>
          dsimp only at hw ⊢
          obtain ⟨fs, _, hr⟩ := forall₂_get hf w _ hw
          have := workerProg_head fs _ _ hr.symm
          cases this
      | mid ps₁ ps₂ qs₁ qs₂ fsw done f n k hk hf₁ hf₂ hperm =>
          dsimp only at hw ⊢
          rcases split_get ps₁ ps₂ _ qs₁ qs₂ hf₁ hf₂ w _ hw with ⟨hv, hp⟩ | ⟨fs, hr⟩
          · cases k with
            | zero => simp [midProg] at hp
            | succ k' =>
                have hp' : f' = f ∧ rest = midProg f k' fsw := by
                  simpa [midProg, List.replicate_succ, List.cons.injEq] using hp
                obtain ⟨hpf, hprest⟩ := hp'
                subst hprest
                subst hv
                rw [set_mid, hpf]
                have hout : (render done ++ List.replicate (n - (k' + 1)) f) ++ [f] =
                    render done ++ List.replicate (n - k') f := by
                  rw [List.append_assoc, ← List.replicate_succ']
                  have : n - (k' + 1) + 1 = n - k' := by omega
                  rw [this]
                rw [hout]
                exact Inv.mid ps₁ ps₂ qs₁ qs₂ fsw done f n k' (by omega) hf₁ hf₂ hperm
          · have := workerProg_head fs _ _ hr.symm
            cases this
      | preUnlock ps₁ ps₂ qs₁ qs₂ fsw done hf₁ hf₂ hperm =>
          dsimp only at hw ⊢
          rcases split_get ps₁ ps₂ _ qs₁ qs₂ hf₁ hf₂ w _ hw with ⟨hv, hp⟩ | ⟨fs, hr⟩
          · simp [unlockProg] at hp
          · have := workerProg_head fs _ _ hr.symm
            cases this
  | flushStep w rest hw =>
      cases hinv with
      | boundary progs pend done hf hperm =>
          dsimp only at hw ⊢
          obtain ⟨fs, _, hr⟩ := forall₂_get hf w _ hw
          have := workerProg_head fs _ _ hr.symm
          cases this
      | mid ps₁ ps₂ qs₁ qs₂ fsw done f n k hk hf₁ hf₂ hperm =>
          dsimp only at hw ⊢
          rcases split_get ps₁ ps₂ _ qs₁ qs₂ hf₁ hf₂ w _ hw with ⟨hv, hp⟩ | ⟨fs, hr⟩
          · cases k with
            | succ k' => simp [midProg, List.replicate_succ] at hp
            | zero =>
                have hprest : rest = unlockProg fsw := by
                  simpa [midProg, unlockProg] using hp
                subst hprest
                subst hv
                rw [set_mid]
                have hout : render done ++ List.replicate (n - 0) f =
                    render (done ++ [(f, n)]) := by
                  rw [render_append]
                  simp
                rw [hout]
                refine Inv.preUnlock ps₁ ps₂ qs₁ qs₂ fsw (done ++ [(f, n)]) hf₁ hf₂ ?_
                rw [List.append_assoc, List.singleton_append]
                exact hperm
          · have := workerProg_head fs _ _ hr.symm
            cases this
      | preUnlock ps₁ ps₂ qs₁ qs₂ fsw done hf₁ hf₂ hperm =>
          dsimp only at hw ⊢
          rcases split_get ps₁ ps₂ _ qs₁ qs₂ hf₁ hf₂ w _ hw with ⟨hv, hp⟩ | ⟨fs, hr⟩
          · simp [unlockProg] at hp
          · have := workerProg_head fs _ _ hr.symm
            cases this
  | unlockStep w rest hw hold =>
      cases hinv with
      | boundary progs pend done hf hperm =>
          exact absurd hold (by simp)
      | mid ps₁ ps₂ qs₁ qs₂ fsw done f n k hk hf₁ hf₂ hperm =>
          dsimp only at hw hold ⊢
          rcases split_get ps₁ ps₂ _ qs₁ qs₂ hf₁ hf₂ w _ hw with ⟨hv, hp⟩ | ⟨fs, hr⟩
          · cases k with
            | zero => simp [midProg] at hp
            | succ k' => simp [midProg, List.replicate_succ] at hp
          · have := workerProg_head fs _ _ hr.symm
            cases this
      | preUnlock ps₁ ps₂ qs₁ qs₂ fsw done hf₁ hf₂ hperm =>
          dsimp only at hw hold ⊢
          rcases split_get ps₁ ps₂ _ qs₁ qs₂ hf₁ hf₂ w _ hw with ⟨hv, hp⟩ | ⟨fs, hr⟩
          · have hprest : rest = workerProg fsw := by
              simpa [unlockProg] using hp
            subst hprest
            subst hv
            rw [set_mid]
            exact Inv.boundary (ps₁ ++ workerProg fsw :: ps₂) (qs₁ ++ fsw :: qs₂) done
              (List.rel_append hf₁ (List.Forall₂.cons rfl hf₂)) hperm
          · have := workerProg_head fs _ _ hr.symm
            cases this

end Sched

namespace Sched

theorem forall₂_map_workerProg (A : List (List (Nat × Nat))) :
    List.Forall₂ (fun p fs => p = workerProg fs) (A.map workerProg) A := by
  induction A with
  | nil => exact List.Forall₂.nil
  | cons fs A ih => exact List.Forall₂.cons rfl ih

theorem inv_init (A : List (List (Nat × Nat))) : Inv A.flatten (initState A) :=
  Inv.boundary (A.map workerProg) A [] (forall₂_map_workerProg A) (by simp)

theorem inv_reaches (AJ : List (Nat × Nat)) (s t : SchedState)
    (hinv : Inv AJ s) (hr : Reaches s t) : Inv AJ t := by
  induction hr with
  | refl => exact hinv
  | tail a b hr hstep ih => exact inv_step AJ _ _ ih hstep

theorem pend_flatten_nil {progs : List (List Instr)}
    {pend : List (List (Nat × Nat))}
    (hf : List.Forall₂ (fun p fs => p = workerProg fs) progs pend) :
    (∀ p ∈ progs, p = []) → pend.flatten = [] := by
  induction hf with
  | nil => intro _; rfl
  | @cons a b l₁ l₂ h₁ h₂ ih =>
      intro hfin
      have ha : a = [] := hfin a (List.mem_cons_self a l₁)
      have hb : b = [] := workerProg_eq_nil b (by rw [← h₁]; exact ha)
      have hl : l₂.flatten = [] := ih (fun p hp => hfin p (List.mem_cons_of_mem a hp))
      simp [hb, hl]

end Sched

/-- C8: in the interleaving model of the scan worker pool — each
worker executing `lock; write each of its file's records; flush;
unlock` per file, with the scheduler free to interleave workers at
every instruction, subject only to the mutex semantics — every
execution that runs all workers to completion from an assignment whose
files are pairwise distinct produces an output trace that is exactly a
concatenation of one contiguous block per file: no two files' records
interleave. -/
theorem claim_C8_contiguity (A : List (List (Nat × Nat))) (s : SchedState)
    (hnd : (A.flatten.map Prod.fst).Nodup)
    (hreach : Reaches (initState A) s)
    (hfin : ∀ p ∈ s.progs, p = []) :
    ∃ done : List (Nat × Nat),
      done.Perm A.flatten ∧ (done.map Prod.fst).Nodup ∧ s.out = render done := by
  have hinv : Inv A.flatten s := inv_reaches A.flatten _ _ (inv_init A) hreach
  cases hinv with
  | boundary progs pend done hf hperm =>
      have hflat : pend.flatten = [] := pend_flatten_nil hf (fun p hp => hfin p hp)
      have hperm' : done.Perm A.flatten := by
        rw [hflat, List.append_nil] at hperm
        exact hperm
      refine ⟨done, hperm', ?_, rfl⟩
      exact (hperm'.map Prod.fst).nodup_iff.mpr hnd
  | mid ps₁ ps₂ qs₁ qs₂ fsw done f n k hk hf₁ hf₂ hperm =>
      exact absurd
        (hfin (midProg f k fsw) (List.mem_append_right _ (List.mem_cons_self _ _)))
        (midProg_ne_nil f k fsw)
  | preUnlock ps₁ ps₂ qs₁ qs₂ fsw done hf₁ hf₂ hperm =>
      exact absurd
        (hfin (unlockProg fsw) (List.mem_append_right _ (List.mem_cons_self _ _)))
        (unlockProg_ne_nil fsw)

/-- C8 witness: a complete two-worker, two-file execution whose output
trace `[0, 1]` is one contiguous block per file. -/
theorem claim_C8_contiguity_witness :
    ∃ done : List (Nat × Nat),
      done.Perm ([[(0, 1)], [(1, 1)]] : List (List (Nat × Nat))).flatten ∧
      (done.map Prod.fst).Nodup ∧ ([0, 1] : List Nat) = render done := by
  have h0 : Reaches (initState [[(0, 1)], [(1, 1)]]) (initState [[(0, 1)], [(1, 1)]]) :=
    Reaches.refl _
  have h1 := Reaches.tail _ _ _ h0 (WStep.lockStep _ 0 _ rfl rfl)
  have h2 := Reaches.tail _ _ _ h1 (WStep.writeStep _ 0 0 _ rfl)
  have h3 := Reaches.tail _ _ _ h2 (WStep.flushStep _ 0 _ rfl)
  have h4 := Reaches.tail _ _ _ h3 (WStep.unlockStep _ 0 _ rfl rfl)
  have h5 := Reaches.tail _ _ _ h4 (WStep.lockStep _ 1 _ rfl rfl)
  have h6 := Reaches.tail _ _ _ h5 (WStep.writeStep _ 1 1 _ rfl)
  have h7 := Reaches.tail _ _ _ h6 (WStep.flushStep _ 1 _ rfl)
  have h8 := Reaches.tail _ _ _ h7 (WStep.unlockStep _ 1 _ rfl rfl)
  exact claim_C8_contiguity [[(0, 1)], [(1, 1)]] ⟨[[], []], none, [0, 1]⟩
    (by decide) h8 (by decide)
